import Mathlib

/-!
Verification development for the dice-derivatives market-making strategy
(`strategy.py`, class `MyTradingStrategy`).

The Python module is a single-threaded, call-and-return pricing engine.
Floating-point arithmetic is modelled exactly: the empirical estimates and
fair values are rational numbers (integer roll sums divided by counts), so
they live in `ℚ`; quantities involving `np.sqrt` / `np.std` live in `ℝ`.
Python exceptions caught by the code (`ValueError`, `IndexError`) are
modelled with `Option`: a parse or index failure yields `none`.
-/

namespace CTCDerivs

/-! ### Parsing of product identifiers

`_calculate_fair_value` does `product.id.split(",")` and then applies
`int(...)` / `float(...)` to the fields.  `splitOnComma` mirrors Python
`str.split(",")` (so `"" ↦ [""]`, `"a,,b" ↦ ["a","","b"]`).  `parseInt?`
models `int(literal)` and `parseFloat?` models `float(literal)` on signed
decimal literals; on any other string both raise `ValueError`, i.e. return
`none` here. -/

def splitOnCommaAux : List Char → List Char → List (List Char)
  | [], acc => [acc.reverse]
  | c :: rest, acc =>
    if c = ',' then acc.reverse :: splitOnCommaAux rest []
    else splitOnCommaAux rest (c :: acc)

def splitOnComma (l : List Char) : List (List Char) :=
  splitOnCommaAux l []

def digitsVal (l : List Char) : ℕ :=
  l.foldl (fun a c => 10 * a + (c.toNat - 48)) 0

def parseIntCore (l : List Char) : Option ℤ :=
  if l.isEmpty then none
  else if l.all Char.isDigit then some (digitsVal l : ℤ)
  else none

def parseInt? : List Char → Option ℤ
  | '-' :: r => (parseIntCore r).map (fun n => -n)
  | '+' :: r => parseIntCore r
  | l => parseIntCore l

def parseFloatCore (l : List Char) : Option ℚ :=
  let ip := l.takeWhile (fun c => c != '.')
  match l.dropWhile (fun c => c != '.') with
  | [] =>
    if ip.isEmpty then none
    else if ip.all Char.isDigit then some (digitsVal ip : ℚ)
    else none
  | _ :: fp =>
    if ip.isEmpty && fp.isEmpty then none
    else if ip.all Char.isDigit && fp.all Char.isDigit then
      some ((digitsVal ip : ℚ) + (digitsVal fp : ℚ) / (10 : ℚ) ^ fp.length)
    else none

def parseFloat? : List Char → Option ℚ
  | '-' :: r => (parseFloatCore r).map (fun q => -q)
  | '+' :: r => parseFloatCore r
  | l => parseFloatCore l

/-! ### Data model

`Trade`, `Position` mirror the attributes the strategy reads from
`my_trades.get_position(product_id)`; `RoundInfo` mirrors the two keys of
the `round_info` dict read through `.get(key, default)` (absent keys are
`none`).  `Strategy` carries the instance fields set in `__init__` /
`on_game_start` (`print` calls are logging only and are dropped). -/

structure Trade where
  buyer_id : String
  seller_id : String
  price : ℝ
  round_traded : ℤ
  quantity : ℤ

structure Position where
  position : ℤ
  trades : List Trade
  average_price : ℝ

structure RoundInfo where
  current_sub_round : Option ℤ
  total_sub_rounds : Option ℤ

structure Strategy where
  spread_width : ℝ
  dice_sides : ℕ
  team_name : String

/-- `__init__`: spread_width = 4.0, dice_sides = 6 (team_name is not yet
set; modelled as the empty string). -/
noncomputable def initStrategy : Strategy :=
  { spread_width := 4.0, dice_sides := 6, team_name := "" }

/-- `on_game_start`: reads `config.get("dice_sides", 6)` and
`config.get("team_name", "Unknown")`. -/
noncomputable def on_game_start (s : Strategy) (dice_sides : Option ℕ)
    (team_name : Option String) : Strategy :=
  { s with dice_sides := dice_sides.getD 6, team_name := team_name.getD "Unknown" }

/-! ### Distribution estimator -/

/-- `_calculate_expected_roll_value`: at `current_sub_round == 10` (a
hardcoded literal in the source) only `current_rolls` is used, otherwise
`training_rolls + current_rolls`; an empty pooled list falls back to
`(1 + dice_sides) / 2.0`, otherwise `np.mean`. -/
def calc_expected_roll_value (dice_sides : ℕ) (training_rolls current_rolls : List ℤ)
    (current_sub_round : ℤ) : ℚ :=
  let all_rolls := if current_sub_round = 10 then current_rolls
                   else training_rolls ++ current_rolls
  if all_rolls.isEmpty then (1 + (dice_sides : ℚ)) / 2
  else (all_rolls.sum : ℚ) / (all_rolls.length : ℚ)

def listMean (l : List ℤ) : ℚ := (l.sum : ℚ) / (l.length : ℚ)

/-- Population variance, the square of `np.std`. -/
def popVariance (l : List ℤ) : ℚ :=
  ((l.map (fun x => ((x : ℚ) - listMean l) ^ 2)).sum) / (l.length : ℚ)

/-- `np.std` (population standard deviation). -/
noncomputable def listStd (l : List ℤ) : ℝ := Real.sqrt ((popVariance l : ℚ) : ℝ)

/-- `_calculate_standard_error_of_mean`: always pools
`training_rolls + current_rolls` (no sub-round argument).  The empty-list
fallback is the literal `np.sqrt(len(all_rolls)) / 3.46` of the source,
which evaluates to `0` since `len` is `0` there. -/
noncomputable def calc_standard_error_of_mean (training_rolls current_rolls : List ℤ) : ℝ :=
  let all_rolls := training_rolls ++ current_rolls
  if all_rolls.isEmpty then Real.sqrt ((all_rolls.length : ℕ) : ℝ) / 3.46
  else listStd all_rolls / Real.sqrt ((all_rolls.length : ℕ) : ℝ)

/-- `_update_spread`: `1.645 * standard_error_of_mean`. -/
noncomputable def update_spread (training_rolls current_rolls : List ℤ) : ℝ :=
  1.645 * calc_standard_error_of_mean training_rolls current_rolls

/-! ### Fair value -/

/-- `_calculate_fair_value` after the `split(",")`: `data` is the list of
fields.  The `if data[1] == "F" / elif data[1] in ["C", "P"] / else` chain
is rendered as a match on the type-code field (the cases are mutually
exclusive, so the order of the arms is immaterial).  Index accesses
`data[1]`, `data[2]`, `data[3]` that would raise `IndexError`, and failing
`int`/`float` conversions (`ValueError`), are the caught exceptions and
give `none`; an unknown type code at `data[1]` falls through to
`return None`. -/
def fair_value_data : List (List Char) → ℚ → Option ℚ
  | _ :: ['F'] :: s :: _, e => (parseInt? s).map (fun n => e * (n : ℚ) * 2000)
  | _ :: ['C'] :: s2 :: s3 :: _, e =>
    match parseFloat? s2, parseInt? s3 with
    | some strike, some expiry => some (max 0 (e * (expiry : ℚ) * 2000 - strike))
    | _, _ => none
  | _ :: ['P'] :: s2 :: s3 :: _, e =>
    match parseFloat? s2, parseInt? s3 with
    | some strike, some expiry => some (max 0 (strike - e * (expiry : ℚ) * 2000))
    | _, _ => none
  | _, _ => none

/-- `_calculate_fair_value` on the raw product id string. -/
def calculate_fair_value (id : String) (e : ℚ) : Option ℚ :=
  fair_value_data (splitOnComma id.data) e

/-! ### Quote generation (`make_market`) -/

/-- `numeric_position = 0` when `get_position` returned `None`, else
`position.position`. -/
def numeric_position : Option Position → ℤ
  | none => 0
  | some p => p.position

/-- The line `fair_value += (self.spread_width / 10) * (numeric_position * -1)`:
the center the quotes are placed around. -/
noncomputable def skewed_center (w : ℝ) (fv : ℚ) (pos : ℤ) : ℝ :=
  (fv : ℝ) + (w / 10) * ((pos * (-1) : ℤ) : ℝ)

/-- `bid = max(0.1, center - half_spread)`, `ask = center + half_spread`
with `half_spread = w / 2`. -/
noncomputable def quote_around (w center : ℝ) : ℝ × ℝ :=
  (max 0.1 (center - w / 2), center + w / 2)

/-- One iteration of the product loop in `make_market`: `None` exactly when
the fair value is undefined. -/
noncomputable def product_quote (w : ℝ) (e : ℚ) (id : String)
    (pos : Option Position) : Option (ℝ × ℝ) :=
  (calculate_fair_value id e).map
    (fun fv => quote_around w (skewed_center w fv (numeric_position pos)))

/-- `make_market`: computes the expected value per roll (with
`round_info.get("current_sub_round", 0)`), overwrites
`self.spread_width` with `_update_spread(...)`, and quotes every product
whose fair value is defined.  Products are the id strings returned by
`marketplace.get_products()`; the returned association list models the
`quotes` dict. -/
noncomputable def make_market (s : Strategy) (products : List String)
    (training_rolls current_rolls : List ℤ)
    (get_position : String → Option Position) (round_info : RoundInfo) :
    Strategy × List (String × ℝ × ℝ) :=
  let expected := calc_expected_roll_value s.dice_sides training_rolls current_rolls
      (round_info.current_sub_round.getD 0)
  let w := update_spread training_rolls current_rolls
  ({ s with spread_width := w },
    products.filterMap (fun pid =>
      (product_quote w expected pid (get_position pid)).map (fun q => (pid, q))))

/-! ### Spec-side definitions (for refinement comparisons) -/

/-- Modelled from the spec: the standard normal density `φ`. -/
noncomputable def stdNormalPDF (x : ℝ) : ℝ :=
  Real.exp (-(x ^ 2) / 2) / Real.sqrt (2 * Real.pi)

/-- Modelled from the spec: the standard normal CDF `Φ`. -/
noncomputable def stdNormalCDF (x : ℝ) : ℝ :=
  ∫ t in Set.Iic x, stdNormalPDF t

/-- Modelled from the spec: the Bachelier call price
`(S−K)·Φ(d) + σ·φ(d)` with `d = (S−K)/σ`, and `max(0, S−K)` in the
degenerate case `σ = 0`.  This is what the spec asserts the code computes;
the source file itself contains no such formula. -/
noncomputable def bachelierCall (S K σ : ℝ) : ℝ :=
  if σ = 0 then max 0 (S - K)
  else (S - K) * stdNormalCDF ((S - K) / σ) + σ * stdNormalPDF ((S - K) / σ)

/-- Modelled from the spec: the discrete-uniform standard deviation
`sqrt((dice_sides^2 - 1) / 12)` the empty-sample fallback is specified to
return. -/
noncomputable def theoretical_std (dice_sides : ℕ) : ℝ :=
  Real.sqrt (((dice_sides : ℝ) ^ 2 - 1) / 12)

/-! ### General helper lemmas about the embedded code -/

/-- Fair value of a well-formed future id: `e * N * 2000`. -/
lemma fair_value_future (id : String) (e : ℚ) (pre s : List Char)
    (rest : List (List Char)) (N : ℤ)
    (hsplit : splitOnComma id.data = pre :: ['F'] :: s :: rest)
    (hN : parseInt? s = some N) :
    calculate_fair_value id e = some (e * (N : ℚ) * 2000) := by
  rw [calculate_fair_value, hsplit]
  simp [fair_value_data, hN]

/-- Fair value of a well-formed call id: intrinsic value `max 0 (S - K)`. -/
lemma fair_value_call (id : String) (e : ℚ) (pre s2 s3 : List Char)
    (rest : List (List Char)) (K : ℚ) (N : ℤ)
    (hsplit : splitOnComma id.data = pre :: ['C'] :: s2 :: s3 :: rest)
    (hK : parseFloat? s2 = some K) (hN : parseInt? s3 = some N) :
    calculate_fair_value id e = some (max 0 (e * (N : ℚ) * 2000 - K)) := by
  rw [calculate_fair_value, hsplit]
  simp [fair_value_data, hK, hN]

/-- Fair value of a well-formed put id: intrinsic value `max 0 (K - S)`. -/
lemma fair_value_put (id : String) (e : ℚ) (pre s2 s3 : List Char)
    (rest : List (List Char)) (K : ℚ) (N : ℤ)
    (hsplit : splitOnComma id.data = pre :: ['P'] :: s2 :: s3 :: rest)
    (hK : parseFloat? s2 = some K) (hN : parseInt? s3 = some N) :
    calculate_fair_value id e = some (max 0 (K - e * (N : ℚ) * 2000)) := by
  rw [calculate_fair_value, hsplit]
  simp [fair_value_data, hK, hN]

/-- The standard error of the mean is nonnegative (a quotient of square
roots, or the zero fallback). -/
lemma calc_standard_error_of_mean_nonneg (training_rolls current_rolls : List ℤ) :
    0 ≤ calc_standard_error_of_mean training_rolls current_rolls := by
  rw [calc_standard_error_of_mean]
  split_ifs with h
  · positivity
  · exact div_nonneg (Real.sqrt_nonneg _) (Real.sqrt_nonneg _)

/-- The spread written into `self.spread_width` is nonnegative. -/
lemma update_spread_nonneg (training_rolls current_rolls : List ℤ) :
    0 ≤ update_spread training_rolls current_rolls := by
  rw [update_spread]
  exact mul_nonneg (by norm_num) (calc_standard_error_of_mean_nonneg _ _)

/-- Destructuring of quote-map membership: every quoted entry arises from a
defined fair value, skewed by the stored position and spread width. -/
lemma mem_make_market {s : Strategy} {products : List String}
    {training_rolls current_rolls : List ℤ}
    {get_position : String → Option Position} {round_info : RoundInfo}
    {pid : String} {b a : ℝ}
    (h : (pid, b, a) ∈ (make_market s products training_rolls current_rolls
      get_position round_info).2) :
    ∃ fv : ℚ,
      calculate_fair_value pid (calc_expected_roll_value s.dice_sides training_rolls
        current_rolls (round_info.current_sub_round.getD 0)) = some fv ∧
      (b, a) = quote_around (update_spread training_rolls current_rolls)
        (skewed_center (update_spread training_rolls current_rolls) fv
          (numeric_position (get_position pid))) := by
  simp only [make_market, List.mem_filterMap] at h
  obtain ⟨q, hq, hmap⟩ := h
  rw [Option.map_eq_some'] at hmap
  obtain ⟨r, hr, hqr⟩ := hmap
  obtain ⟨rfl, rfl⟩ : q = pid ∧ r = (b, a) := by
    constructor <;> [exact congrArg Prod.fst hqr; exact congrArg Prod.snd hqr]
  rw [product_quote, Option.map_eq_some'] at hr
  obtain ⟨fv, hfv, hquote⟩ := hr
  exact ⟨fv, hfv, hquote.symm⟩

/-! ### Concrete evaluations used by counterexamples and witnesses -/

lemma sqrt_four : Real.sqrt 4 = 2 := by
  rw [show (4 : ℝ) = 2 ^ 2 by norm_num, Real.sqrt_sq (by norm_num : (0 : ℝ) ≤ 2)]

lemma popVariance_1155 : popVariance [1, 1, 5, 5] = 4 := by
  simp [popVariance, listMean]; norm_num

/-- On the sample `[1,1,5,5]` the code's spread is `1.645` (std `2` over
`sqrt 4` rolls times the z-score). -/
lemma update_spread_1155 : update_spread [1, 1, 5, 5] [] = 1.645 := by
  rw [update_spread, calc_standard_error_of_mean]
  norm_num [listStd, popVariance_1155, sqrt_four]

/-- With no rolls at all, the spread is `1.645 * (sqrt 0 / 3.46) = 0`. -/
lemma update_spread_nil : update_spread [] [] = 0 := by
  simp [update_spread, calc_standard_error_of_mean]

lemma calc_expected_nil : calc_expected_roll_value 6 [] [] 0 = 7 / 2 := by
  simp [calc_expected_roll_value]; norm_num

lemma fair_value_SF1 : calculate_fair_value "S,F,1" (7 / 2) = some 7000 := by
  have h1 : splitOnComma "S,F,1".data = [['S'], ['F'], ['1']] := by decide
  rw [calculate_fair_value, h1]
  simp only [fair_value_data, show parseInt? ['1'] = some 1 from by decide]
  norm_num

/-- With empty roll history the future `"S,F,1"` is quoted at the
degenerate pair `(7000, 7000)`: fair value `3.5 * 1 * 2000` and zero
spread. -/
lemma mm_empty_future_eval :
    (make_market initStrategy ["S,F,1"] [] [] (fun _ => none)
      { current_sub_round := some 0, total_sub_rounds := some 10 }).2
      = [("S,F,1", 7000, 7000)] := by
  simp only [make_market, initStrategy, Option.getD, List.filterMap]
  norm_num [calc_expected_nil, update_spread_nil, fair_value_SF1,
    product_quote, quote_around, skewed_center, numeric_position]

/-! ### Claim C1 -/

/-- C1, counterexample.  The claim says a call `"S,C,K,N"` is priced at the
Bachelier value `(S-K)Φ(d) + σφ(d)`.  At the money (`S = K = 4000`, from
`expected_value_per_roll = 2` and expiry `1`) the code returns the
intrinsic value `0`, while the Bachelier price is `σ·φ(0) > 0` for any
positive total standard deviation (here `σ = 2`, e.g. a per-roll standard
deviation of `1` with `4` rolls remaining).  So the code does not compute
the Bachelier price. -/
theorem C1_cex :
    calculate_fair_value "S,C,4000,1" 2 = some 0 ∧
    bachelierCall 4000 4000 2 ≠ 0 := by
  constructor
  · have h1 : splitOnComma "S,C,4000,1".data = [['S'], ['C'], ['4', '0', '0', '0'], ['1']] := by
      decide
    rw [calculate_fair_value, h1]
    simp only [fair_value_data,
      show parseFloat? ['4', '0', '0', '0'] = some 4000 from by decide,
      show parseInt? ['1'] = some 1 from by decide]
    norm_num
  · have hpdf : 0 < stdNormalPDF ((4000 - 4000) / 2) := by
      rw [stdNormalPDF]
      positivity
    rw [bachelierCall, if_neg (by norm_num : (2 : ℝ) ≠ 0)]
    intro h
    rw [show ((4000 : ℝ) - 4000) = 0 by norm_num] at h
    rw [zero_mul, zero_add] at h
    rw [show ((4000 : ℝ) - 4000) = 0 by norm_num] at hpdf
    linarith

/-- C1, amended: for every well-formed call `"_,C,K,N"` and put `"_,P,K,N"`
the code prices at intrinsic value, `max 0 (S - K)` resp. `max 0 (K - S)`
with `S = e·N·2000`, for every value of the total standard deviation
(which the code never computes or uses); this agrees with the claimed
Bachelier price exactly in the degenerate case `σ = 0`. -/
theorem C1_intrinsic_pricing (idc idp : String) (e : ℚ) (prec prep s2 s3 : List Char)
    (restc restp : List (List Char)) (K : ℚ) (N : ℤ)
    (hc : splitOnComma idc.data = prec :: ['C'] :: s2 :: s3 :: restc)
    (hp : splitOnComma idp.data = prep :: ['P'] :: s2 :: s3 :: restp)
    (hK : parseFloat? s2 = some K) (hN : parseInt? s3 = some N) :
    calculate_fair_value idc e = some (max 0 (e * (N : ℚ) * 2000 - K)) ∧
    calculate_fair_value idp e = some (max 0 (K - e * (N : ℚ) * 2000)) ∧
    bachelierCall ((e * (N : ℚ) * 2000 : ℚ) : ℝ) ((K : ℚ) : ℝ) 0
      = ((max 0 (e * (N : ℚ) * 2000 - K) : ℚ) : ℝ) := by
  refine ⟨fair_value_call idc e prec s2 s3 restc K N hc hK hN,
    fair_value_put idp e prep s2 s3 restp K N hp hK hN, ?_⟩
  rw [bachelierCall, if_pos rfl]
  push_cast
  ring_nf

/-- C1, witness: the amended statement at `"S,C,4000,1"` / `"S,P,4000,1"`
with `e = 2`, `K = 4000`, `N = 1`. -/
theorem C1_intrinsic_pricing_witness :
    calculate_fair_value "S,C,4000,1" 2 = some (max 0 (2 * ((1 : ℤ) : ℚ) * 2000 - 4000)) ∧
    calculate_fair_value "S,P,4000,1" 2 = some (max 0 (4000 - 2 * ((1 : ℤ) : ℚ) * 2000)) ∧
    bachelierCall ((2 * ((1 : ℤ) : ℚ) * 2000 : ℚ) : ℝ) ((4000 : ℚ) : ℝ) 0
      = ((max 0 (2 * ((1 : ℤ) : ℚ) * 2000 - 4000) : ℚ) : ℝ) :=
  C1_intrinsic_pricing "S,C,4000,1" "S,P,4000,1" 2 ['S'] ['S'] ['4', '0', '0', '0'] ['1']
    [] [] 4000 1 (by decide) (by decide) (by decide) (by decide)

/-! ### Claim C2 -/

/-- Quotes produced for the out-of-the-money call `"S,C,10000,1"` on the
sample `[1,1,5,5]` (fair value `0`, spread `1.645`) while holding a long
position of `100`: the skew pushes the center to `-16.45`, the bid is
floored at `0.1` but the ask is `-15.6275`. -/
lemma mm_otm_call_eval :
    (make_market initStrategy ["S,C,10000,1"] [1, 1, 5, 5] []
      (fun _ => some { position := 100, trades := [], average_price := 0 })
      { current_sub_round := some 0, total_sub_rounds := some 10 }).2
      = [("S,C,10000,1", 0.1, -15.6275)] := by
  have he : calc_expected_roll_value 6 [1, 1, 5, 5] [] 0 = 3 := by
    simp [calc_expected_roll_value]; norm_num
  have hfv : calculate_fair_value "S,C,10000,1" 3 = some 0 := by
    have h1 : splitOnComma "S,C,10000,1".data
        = [['S'], ['C'], ['1', '0', '0', '0', '0'], ['1']] := by decide
    rw [calculate_fair_value, h1]
    simp only [fair_value_data,
      show parseFloat? ['1', '0', '0', '0', '0'] = some 10000 from by decide,
      show parseInt? ['1'] = some 1 from by decide]
    norm_num
  simp only [make_market, initStrategy, Option.getD, List.filterMap]
  norm_num [he, update_spread_1155, hfv, product_quote, quote_around,
    skewed_center, numeric_position]

/-- C2, counterexample.  The claim says `bid ≤ ask` for every entry
regardless of the supplied net position.  With net position `100` in a
worthless call, the inventory skew pushes the whole quote negative, the
bid floor fires, and the quote is `(0.1, -15.6275)` with `bid > ask`. -/
theorem C2_cex :
    (make_market initStrategy ["S,C,10000,1"] [1, 1, 5, 5] []
      (fun _ => some { position := 100, trades := [], average_price := 0 })
      { current_sub_round := some 0, total_sub_rounds := some 10 }).2
      = [("S,C,10000,1", 0.1, -15.6275)] ∧
    ¬ ((0.1 : ℝ) ≤ -15.6275) := by
  exact ⟨mm_otm_call_eval, by norm_num⟩

/-- C2, amended: every quoted entry has `bid ≥ 0.1`, and `bid ≤ ask` holds
whenever the ask itself is at least the floor `0.1` (the skew can push the
ask below the floored bid, as the counterexample shows, but never produces
a bid under `0.1`). -/
theorem C2_bid_floor (s : Strategy) (products : List String)
    (training_rolls current_rolls : List ℤ)
    (get_position : String → Option Position) (round_info : RoundInfo)
    (pid : String) (b a : ℝ)
    (h : (pid, b, a) ∈ (make_market s products training_rolls current_rolls
      get_position round_info).2) :
    0.1 ≤ b ∧ (0.1 ≤ a → b ≤ a) := by
  obtain ⟨fv, hfv, hq⟩ := mem_make_market h
  have hb : b = max 0.1 (skewed_center (update_spread training_rolls current_rolls) fv
      (numeric_position (get_position pid)) - update_spread training_rolls current_rolls / 2) :=
    congrArg Prod.fst hq
  have ha : a = skewed_center (update_spread training_rolls current_rolls) fv
      (numeric_position (get_position pid)) + update_spread training_rolls current_rolls / 2 :=
    congrArg Prod.snd hq
  have hw := update_spread_nonneg training_rolls current_rolls
  constructor
  · rw [hb]; exact le_max_left _ _
  · intro h01
    rw [hb]
    refine max_le h01 ?_
    rw [ha]
    linarith

/-- C2, witness: the degenerate empty-history future quote `(7000, 7000)`
satisfies both conclusions. -/
theorem C2_bid_floor_witness :
    (0.1 : ℝ) ≤ 7000 ∧ ((0.1 : ℝ) ≤ 7000 → (7000 : ℝ) ≤ 7000) :=
  C2_bid_floor initStrategy ["S,F,1"] [] [] (fun _ => none)
    { current_sub_round := some 0, total_sub_rounds := some 10 } "S,F,1" 7000 7000
    (by rw [mm_empty_future_eval]; exact List.mem_singleton.mpr rfl)

/-! ### Claim C3 -/

/-- C3, counterexample.  The claim says the distance between the skewed
center and the raw fair value never exceeds 90% of the half-spread.  The
code applies `(spread_width / 10) * (-position)` with no clamp: with the
actual spread `1.645` (sample `[1,1,5,5]`) and position `100`, the skew is
`16.45`, which is 2000% of the half-spread `0.8225`. -/
theorem C3_cex :
    update_spread [1, 1, 5, 5] [] = 1.645 ∧
    ¬ (|skewed_center 1.645 0 100 - ((0 : ℚ) : ℝ)| ≤ 0.9 * (1.645 / 2)) := by
  refine ⟨update_spread_1155, ?_⟩
  have h : skewed_center 1.645 0 100 - ((0 : ℚ) : ℝ) = -16.45 := by
    rw [skewed_center]
    push_cast
    norm_num
  rw [h, abs_of_neg (by norm_num : (-16.45 : ℝ) < 0)]
  norm_num

/-- C3, amended: the skew magnitude is exactly `(spread_width / 10) · |position|`
— one fifth of the half-spread per unit of net position — with no clamp at
all; it stays within 90% of the half-spread only while `|position| ≤ 4`. -/
theorem C3_skew_formula (w : ℝ) (fv : ℚ) (p : ℤ) (hw : 0 ≤ w) :
    |skewed_center w fv p - (fv : ℝ)| = w / 10 * |(p : ℝ)| ∧
    (|p| ≤ 4 → |skewed_center w fv p - (fv : ℝ)| ≤ 0.9 * (w / 2)) := by
  have key : skewed_center w fv p - (fv : ℝ) = w / 10 * (-(p : ℝ)) := by
    rw [skewed_center]
    push_cast
    ring
  have habs : |skewed_center w fv p - (fv : ℝ)| = w / 10 * |(p : ℝ)| := by
    rw [key, abs_mul, abs_neg, abs_of_nonneg (by linarith : (0 : ℝ) ≤ w / 10)]
  refine ⟨habs, fun hp => ?_⟩
  have hp4 : |(p : ℝ)| ≤ 4 := by
    have h4 : ((|p| : ℤ) : ℝ) ≤ ((4 : ℤ) : ℝ) := by exact_mod_cast hp
    rw [Int.cast_abs] at h4
    exact_mod_cast h4
  rw [habs]
  nlinarith

/-- C3, witness: the amended statement at `w = 2`, `fv = 0`, `position = 3`. -/
theorem C3_skew_formula_witness :
    |skewed_center 2 0 3 - ((0 : ℚ) : ℝ)| = 2 / 10 * |((3 : ℤ) : ℝ)| ∧
    (|(3 : ℤ)| ≤ 4 → |skewed_center 2 0 3 - ((0 : ℚ) : ℝ)| ≤ 0.9 * (2 / 2)) :=
  C3_skew_formula 2 0 3 (by norm_num)

/-! ### Claim C4 -/

/-- C4: malformed product ids are never quoted.  The spec's example ids
`"S,X,100"` (unknown type code) and `"S,C,abc,5"` (non-numeric strike)
have undefined fair value for every estimate, and any product whose fair
value is undefined produces no entry in the quote map.  The Python
exceptions (`ValueError`, `IndexError`) are caught inside
`_calculate_fair_value`, which is modelled by `calculate_fair_value` being
a total function into `Option`: no exception escapes to the caller. -/
theorem C4_malformed_skipped :
    (∀ e : ℚ, calculate_fair_value "S,X,100" e = none ∧
      calculate_fair_value "S,C,abc,5" e = none) ∧
    ∀ (s : Strategy) (products : List String) (training_rolls current_rolls : List ℤ)
      (get_position : String → Option Position) (round_info : RoundInfo) (pid : String),
      calculate_fair_value pid (calc_expected_roll_value s.dice_sides training_rolls
        current_rolls (round_info.current_sub_round.getD 0)) = none →
      ∀ q ∈ (make_market s products training_rolls current_rolls
        get_position round_info).2, q.1 ≠ pid := by
  constructor
  · exact fun e => ⟨rfl, rfl⟩
  · intro s products training_rolls current_rolls get_position round_info pid hfv q hq heq
    obtain ⟨q1, b, a⟩ := q
    cases heq
    obtain ⟨fv, hfv2, _⟩ := mem_make_market hq
    rw [hfv] at hfv2
    exact Option.noConfusion hfv2

/-- C4, witness: `"S,X,100"` gets no entry in a concrete call that lists
it (together with `"S,C,abc,5"`) as a tradeable product. -/
theorem C4_malformed_skipped_witness :
    calculate_fair_value "S,X,100" 0 = none ∧
    ∀ q ∈ (make_market initStrategy ["S,X,100", "S,C,abc,5"] [] [] (fun _ => none)
      { current_sub_round := some 0, total_sub_rounds := some 10 }).2,
      q.1 ≠ "S,X,100" :=
  ⟨(C4_malformed_skipped.1 0).1,
    C4_malformed_skipped.2 initStrategy ["S,X,100", "S,C,abc,5"] [] [] (fun _ => none)
      { current_sub_round := some 0, total_sub_rounds := some 10 } "S,X,100" rfl⟩

/-! ### Claim C5 -/

/-- C5, counterexample.  The claim says that when
`current_sub_round == total_sub_rounds` the estimate uses only
`current_rolls` and a future with `N = total_sub_rounds` is priced at the
realized sum.  The code compares `current_sub_round` to the literal `10`,
not to `total_sub_rounds`: with `current_sub_round = total_sub_rounds = 5`,
`training_rolls = [1]`, `current_rolls = [3]`, the estimator pools both
lists (mean `2`, not the current-only mean `3`), and the future `"S,F,5"`
is quoted around `2 * 5 * 2000 = 20000`, so `bid + ask = 40000`, not twice
the realized sum `3`. -/
theorem C5_cex :
    calc_expected_roll_value 6 [1] [3] 5 = 2 ∧
    (make_market initStrategy ["S,F,5"] [1] [3] (fun _ => none)
      { current_sub_round := some 5, total_sub_rounds := some 5 }).2
      = [("S,F,5", 20000 - update_spread [1] [3] / 2,
          20000 + update_spread [1] [3] / 2)] ∧
    (20000 - update_spread [1] [3] / 2) + (20000 + update_spread [1] [3] / 2)
      ≠ 2 * ((([3] : List ℤ).sum : ℤ) : ℝ) := by
  have he : calc_expected_roll_value 6 [1] [3] 5 = 2 := by
    simp [calc_expected_roll_value]; norm_num
  have hfv : calculate_fair_value "S,F,5" 2 = some 20000 := by
    have h1 : splitOnComma "S,F,5".data = [['S'], ['F'], ['5']] := by decide
    rw [calculate_fair_value, h1]
    simp only [fair_value_data, show parseInt? ['5'] = some 5 from by decide]
    norm_num
  have hsem : calc_standard_error_of_mean [1] [3] = 1 / Real.sqrt 2 := by
    have hv : popVariance [1, 3] = 1 := by simp [popVariance, listMean]; norm_num
    rw [calc_standard_error_of_mean]
    norm_num [listStd, hv]
  have hsqrt2 : 1 ≤ Real.sqrt 2 := by
    rw [show (1 : ℝ) = Real.sqrt 1 by rw [Real.sqrt_one]]
    exact Real.sqrt_le_sqrt (by norm_num)
  have hival : 1 / Real.sqrt 2 ≤ 1 := by
    rw [div_le_one (by positivity : (0 : ℝ) < Real.sqrt 2)]
    exact hsqrt2
  have hwle : update_spread [1] [3] ≤ 1.645 := by
    rw [update_spread, hsem]
    nlinarith
  have hw0 : 0 ≤ update_spread [1] [3] := update_spread_nonneg _ _
  refine ⟨he, ?_, by norm_num⟩
  have hcenter : skewed_center (update_spread [1] [3]) 20000 (numeric_position none)
      = 20000 := by
    rw [skewed_center, numeric_position]
    push_cast
    ring
  have hmax : max 0.1 ((20000 : ℝ) - update_spread [1] [3] / 2)
      = 20000 - update_spread [1] [3] / 2 :=
    max_eq_right (by linarith)
  simp only [make_market, initStrategy, Option.getD, List.filterMap]
  norm_num [he, hfv, product_quote, quote_around, hcenter, hmax]
  linarith

/-- C5, amended: the terminal check is against the literal sub-round `10`;
when `current_sub_round = 10` the mean estimate indeed uses only
`current_rolls` (the training rolls are ignored), and a future with
settlement `N` is priced at `mean(current_rolls)·N·2000`, which equals the
realized sum of the current rolls exactly when `current_rolls` holds
`N·2000` values (the full batch schedule of 2000 rolls per sub-round). -/
theorem C5_terminal_pricing (id : String) (dice : ℕ) (training_rolls current_rolls : List ℤ)
    (pre s : List Char) (rest : List (List Char)) (N : ℤ)
    (hsplit : splitOnComma id.data = pre :: ['F'] :: s :: rest)
    (hN : parseInt? s = some N)
    (hne : current_rolls ≠ [])
    (hlen : (current_rolls.length : ℤ) = N * 2000) :
    calc_expected_roll_value dice training_rolls current_rolls 10
      = calc_expected_roll_value dice [] current_rolls 10 ∧
    calculate_fair_value id (calc_expected_roll_value dice training_rolls current_rolls 10)
      = some ((current_rolls.sum : ℚ)) := by
  refine ⟨rfl, ?_⟩
  rw [fair_value_future id _ pre s rest N hsplit hN]
  congr 1
  have hlen0 : current_rolls.length ≠ 0 := by
    have := List.length_pos.mpr hne
    omega
  have he : calc_expected_roll_value dice training_rolls current_rolls 10
      = (current_rolls.sum : ℚ) / (current_rolls.length : ℚ) := by
    rw [calc_expected_roll_value]
    simp [hne]
  rw [he]
  have hq : (current_rolls.length : ℚ) = (N : ℚ) * 2000 := by exact_mod_cast hlen
  have hq0 : ((N : ℚ) * 2000) ≠ 0 := by
    rw [← hq]
    exact_mod_cast hlen0
  rw [hq]
  field_simp
  ring

/-- C5, witness: at `current_sub_round = 10` with `current_rolls` the full
batch of `2000` rolls of value `3` and the future `"S,F,1"`, the training
roll `[7]` is ignored and the price is the realized sum `6000`. -/
theorem C5_terminal_pricing_witness :
    calc_expected_roll_value 6 [7] (List.replicate 2000 3) 10
      = calc_expected_roll_value 6 [] (List.replicate 2000 3) 10 ∧
    calculate_fair_value "S,F,1"
      (calc_expected_roll_value 6 [7] (List.replicate 2000 3) 10)
      = some (((List.replicate 2000 (3 : ℤ)).sum : ℚ)) :=
  C5_terminal_pricing "S,F,1" 6 [7] (List.replicate 2000 3) ['S'] ['1'] [] 1
    (by decide) (by decide)
    (by intro h; have h2 := congrArg List.length h; rw [List.length_replicate] at h2; simp at h2)
    (by rw [List.length_replicate]; norm_num)

/-! ### Claim C6 -/

/-- C6: code-bug evidence, evaluated at the failing input (no training and
no current rolls, six-sided dice).  The mean fallback is the theoretical
`(1 + 6)/2 = 3.5` as claimed, but the uncertainty fallback of
`_calculate_standard_error_of_mean` is the literal
`np.sqrt(len(all_rolls)) / 3.46 = sqrt(0)/3.46 = 0`, not the
discrete-uniform standard deviation `sqrt((6² - 1)/12) ≈ 1.708` that the
claim (and the function's own comment) prescribe. -/
theorem C6_empty_fallback_eval :
    calc_expected_roll_value 6 [] [] 0 = 7 / 2 ∧
    calc_standard_error_of_mean [] [] = 0 ∧
    theoretical_std 6 ≠ 0 := by
  refine ⟨calc_expected_nil, by simp [calc_standard_error_of_mean], ?_⟩
  rw [theoretical_std]
  exact ne_of_gt (Real.sqrt_pos.mpr (by norm_num))

/-! ### Claim C7 -/

/-- C7, counterexample.  The claim says every future is quoted with
half-spread `max(floor, z·σ_total)` for some fixed positive minimum tick
floor.  With empty roll history the future `"S,F,1"` is quoted `(7000, 7000)`
— zero width — and a zero half-spread cannot equal `max(floor, z·σ)` for
any positive floor, whatever `z` and `σ` are. -/
theorem C7_cex :
    (make_market initStrategy ["S,F,1"] [] [] (fun _ => none)
      { current_sub_round := some 0, total_sub_rounds := some 10 }).2
      = [("S,F,1", 7000, 7000)] ∧
    ∀ tickFloor z σ : ℝ, 0 < tickFloor →
      max tickFloor (z * σ) ≠ ((7000 : ℝ) - 7000) / 2 := by
  refine ⟨mm_empty_future_eval, ?_⟩
  intro tickFloor z σ hf h
  have hle : tickFloor ≤ max tickFloor (z * σ) := le_max_left _ _
  rw [h] at hle
  norm_num at hle
  linarith

/-- C7, amended: there is a single half-spread policy for all product
types: every product is quoted at `center ± w/2` with the same
`w = 1.645 · SEM(pooled rolls)` of the call — hence any two quotes whose
bids are not clipped by the `0.1` floor have identical widths, whatever
the products' types or fair values are — and there is no floor on the
spread itself: with empty history `w = 0`. -/
theorem C7_uniform_spread (w c1 c2 : ℝ)
    (h1 : 0.1 ≤ c1 - w / 2) (h2 : 0.1 ≤ c2 - w / 2) :
    (quote_around w c1).2 - (quote_around w c1).1
      = (quote_around w c2).2 - (quote_around w c2).1 ∧
    update_spread [] [] = 0 := by
  constructor
  · simp only [quote_around]
    rw [max_eq_right h1, max_eq_right h2]
    ring
  · exact update_spread_nil

/-- C7, witness: the amended statement at `w = 2`, centers `100` and `5`. -/
theorem C7_uniform_spread_witness :
    (quote_around 2 100).2 - (quote_around 2 100).1
      = (quote_around 2 5).2 - (quote_around 2 5).1 ∧
    update_spread [] [] = 0 :=
  C7_uniform_spread 2 100 5 (by norm_num) (by norm_num)

/-! ### Claim C8 -/

/-- C8: put-call parity.  For a call and a put with the same strike `K`
and expiry `N` priced from the same estimate `e` (expected total
`S = e·N·2000`), the code's fair values satisfy
`call - put = S - K` — exactly, not merely approximately, since the code
prices both legs at intrinsic value. -/
theorem C8_put_call_parity (idc idp : String) (e : ℚ) (prec prep s2 s3 : List Char)
    (restc restp : List (List Char)) (K : ℚ) (N : ℤ)
    (hc : splitOnComma idc.data = prec :: ['C'] :: s2 :: s3 :: restc)
    (hp : splitOnComma idp.data = prep :: ['P'] :: s2 :: s3 :: restp)
    (hK : parseFloat? s2 = some K) (hN : parseInt? s3 = some N) :
    ∃ c p : ℚ, calculate_fair_value idc e = some c ∧
      calculate_fair_value idp e = some p ∧
      c - p = e * (N : ℚ) * 2000 - K := by
  refine ⟨max 0 (e * (N : ℚ) * 2000 - K), max 0 (K - e * (N : ℚ) * 2000),
    fair_value_call idc e prec s2 s3 restc K N hc hK hN,
    fair_value_put idp e prep s2 s3 restp K N hp hK hN, ?_⟩
  rcases le_total (e * (N : ℚ) * 2000 - K) 0 with h | h
  · rw [max_eq_left h, max_eq_right (by linarith : (0 : ℚ) ≤ K - e * (N : ℚ) * 2000)]
    ring
  · rw [max_eq_right h, max_eq_left (by linarith : K - e * (N : ℚ) * 2000 ≤ 0)]
    ring

/-- C8, witness: `"S,C,5000,1"` and `"S,P,5000,1"` with `e = 2`
(`S = 4000`): call `0`, put `1000`, difference `-1000 = S - K`. -/
theorem C8_put_call_parity_witness :
    ∃ c p : ℚ, calculate_fair_value "S,C,5000,1" 2 = some c ∧
      calculate_fair_value "S,P,5000,1" 2 = some p ∧
      c - p = 2 * ((1 : ℤ) : ℚ) * 2000 - 5000 :=
  C8_put_call_parity "S,C,5000,1" "S,P,5000,1" 2 ['S'] ['S'] ['5', '0', '0', '0'] ['1']
    [] [] 5000 1 (by decide) (by decide) (by decide) (by decide)

/-! ### Claim C9 -/

/-- C9: statelessness.  The quote mapping returned by `make_market`
depends on the carried strategy object only through `dice_sides` (the
configuration set once at game start): two strategy states with the same
`dice_sides` — regardless of the mutable `spread_width` left over from a
previous call, or of `team_name` — produce identical quote mappings on
identical inputs.  (The call does overwrite `self.spread_width`, but
recomputes it from the call's inputs before any use, so no carried state
influences the output.) -/
theorem C9_state_independence (s1 s2 : Strategy) (products : List String)
    (training_rolls current_rolls : List ℤ)
    (get_position : String → Option Position) (round_info : RoundInfo)
    (h : s1.dice_sides = s2.dice_sides) :
    (make_market s1 products training_rolls current_rolls get_position round_info).2
      = (make_market s2 products training_rolls current_rolls get_position round_info).2 := by
  simp only [make_market, h]

/-- C9, witness: two differently initialized strategies (different
spread_width and team_name, same dice) quote identically. -/
theorem C9_state_independence_witness :
    (make_market { spread_width := 4, dice_sides := 6, team_name := "" }
      ["S,F,1"] [1] [2] (fun _ => none)
      { current_sub_round := some 1, total_sub_rounds := some 10 }).2
      = (make_market { spread_width := 123, dice_sides := 6, team_name := "other" }
      ["S,F,1"] [1] [2] (fun _ => none)
      { current_sub_round := some 1, total_sub_rounds := some 10 }).2 :=
  C9_state_independence _ _ ["S,F,1"] [1] [2] (fun _ => none)
    { current_sub_round := some 1, total_sub_rounds := some 10 } rfl

/-! ### Claim C10 -/

/-- C10: a product whose position lookup returns `None` is treated as
holding net position `0`: it is still quoted, and its quote is centered on
the raw, unskewed fair value `fv` — the entry is exactly
`quote_around w fv`. -/
theorem C10_missing_position (s : Strategy) (products : List String)
    (training_rolls current_rolls : List ℤ)
    (get_position : String → Option Position) (round_info : RoundInfo)
    (pid : String) (fv : ℚ)
    (hmem : pid ∈ products)
    (hpos : get_position pid = none)
    (hfv : calculate_fair_value pid (calc_expected_roll_value s.dice_sides training_rolls
      current_rolls (round_info.current_sub_round.getD 0)) = some fv) :
    (pid, quote_around (update_spread training_rolls current_rolls) ((fv : ℚ) : ℝ))
      ∈ (make_market s products training_rolls current_rolls get_position round_info).2 := by
  simp only [make_market]
  refine List.mem_filterMap.mpr ⟨pid, hmem, ?_⟩
  have hc : skewed_center (update_spread training_rolls current_rolls) fv 0 = ((fv : ℚ) : ℝ) := by
    rw [skewed_center]
    push_cast
    ring
  rw [product_quote, hfv, hpos]
  simp only [numeric_position, Option.map_some', hc]

/-- C10, witness: with no stored position, `"S,F,1"` on empty history is
quoted around its unskewed fair value `7000`. -/
theorem C10_missing_position_witness :
    ("S,F,1", quote_around (update_spread [] []) (((7000 : ℚ) : ℚ) : ℝ))
      ∈ (make_market initStrategy ["S,F,1"] [] [] (fun _ => none)
        { current_sub_round := some 0, total_sub_rounds := some 10 }).2 :=
  C10_missing_position initStrategy ["S,F,1"] [] [] (fun _ => none)
    { current_sub_round := some 0, total_sub_rounds := some 10 } "S,F,1" 7000
    (List.mem_singleton.mpr rfl) rfl
    (by rw [show calc_expected_roll_value initStrategy.dice_sides [] []
        ((RoundInfo.mk (some 0) (some 10)).current_sub_round.getD 0) = 7 / 2 from calc_expected_nil]
        exact fair_value_SF1)

end CTCDerivs
